import Mathlib

/-!
# torhoney

A verification development for `torhoney/main.go`: the Project Honeypot
classification of TOR exit nodes.

The embedding follows the source:

* `honeyClass` and its `String` method (lines 26-52);
* `ipData` (lines 54-62);
* the body of the `resolver` loop (lines 68-83), with the DNS lookup as a parameter;
* the body of the consumer loop of `main` (lines 166-174);
* the goroutines of lines 148-178 (workers, feeder, main) as a transition system
  over the two unbuffered channels `in` and `out`.

Conventions: a Go byte slice is a `List Nat`, the `nil` slice being the empty list;
an `error` is an `Option String` (`none` for `nil`); an index out of range is a
`Panic`.
-/

namespace Torhoney

/-! ## honeyClass (lines 26-52) -/

/-- The type `honeyClass` is a `uint8`; its values are the naturals below 256. -/
abbrev honeyClass := Nat

def CLASS_SUSPICIOUS : honeyClass := 1
def CLASS_HARVESTER : honeyClass := 2
def CLASS_SPAMMER : honeyClass := 4

/-- Implementation of the Stringer interface for `honeyClass` (lines 35-52). -/
def honeyClass.String (h : honeyClass) : String :=
  if h = 0 then ",,"
  else
    let s := ""
    let s := if h &&& CLASS_SUSPICIOUS ≠ 0 then s ++ "suspicious" else s
    let s := s ++ ","
    let s := if h &&& CLASS_HARVESTER ≠ 0 then s ++ "harvester" else s
    let s := s ++ ","
    let s := if h &&& CLASS_SPAMMER ≠ 0 then s ++ "comment spammer" else s
    s

/-- Number of commas in a string. -/
def commaCount (s : String) : Nat :=
  s.toList.count ','

/-- Splits a list of characters at every comma (the pieces between commas, in order). -/
def splitCommas : List Char → List (List Char)
  | [] => [[]]
  | c :: cs =>
    if c = ',' then [] :: splitCommas cs
    else
      match splitCommas cs with
      | [] => [[c]]
      | p :: ps => (c :: p) :: ps

/-- The decoder of the round-trip property, following the words of the specification
(it has no counterpart in the source): the label is read as three comma-separated
sub-fields, and the k-th sub-field, when not empty, contributes the k-th flag bit. -/
def decodeLabel (s : String) : Nat :=
  match splitCommas s.toList with
  | [a, b, c] =>
    (if a = [] then 0 else 1) + (if b = [] then 0 else 2) + (if c = [] then 0 else 4)
  | _ => 0

/-! ## Addresses and result records (lines 54-62) -/

/-- The type `net.IP`: a slice of bytes. -/
abbrev IP := List Nat

/-- The library function `net.IP.To4`: a 4-byte slice is returned as it is, a 16-byte
slice with the IPv4-in-IPv6 prefix (ten zero bytes, then `0xff 0xff`) gives its last four
bytes, anything else gives `nil`. -/
def IP.To4 (ip : IP) : IP :=
  if ip.length = 4 then ip
  else if ip.length = 16 ∧ ip.take 10 = List.replicate 10 0 ∧ ip[10]? = some 255
      ∧ ip[11]? = some 255 then ip.drop 12
  else []

/-- The library function `net.IP.String` on the addresses `main` stores: `exitNodes` only
holds results of `To4` that are not `nil` (lines 136-142), and those print in dotted
decimal, as does every slice `To4` accepts; the empty slice prints as `<nil>`. The text
of any other slice (the IPv6 form, or the marker of a bad length) is not modelled: it is
shown as `?`, and no theorem below depends on it. -/
def IP.String (ip : IP) : String :=
  if ip.length = 0 then "<nil>"
  else
    match IP.To4 ip with
    | [a, b, c, d] => toString a ++ "." ++ toString b ++ "." ++ toString c ++ "." ++ toString d
    | _ => "?"

/-- The struct `ipData` (lines 54-62). -/
structure ipData where
  ip : IP
  err : Option String
  listed : Bool
  score : Nat
  days : Nat
  «class» : honeyClass
deriving DecidableEq, Repr

/-! ## The resolver (lines 66-88) -/

/-- A run-time panic of a goroutine; the only one this code can raise is an index out
of range. -/
inductive Panic
  | indexOutOfRange
deriving DecidableEq, Repr

/-- The query name of lines 69-70:
`fmt.Sprintf("%s.%d.%d.%d.%d.dnsbl.httpbl.org", key, ip[3], ip[2], ip[1], ip[0])`.
It is `none` when one of the four index expressions is out of range. -/
def queryName (key : String) (ip : IP) : Option String :=
  match ip[3]?, ip[2]?, ip[1]?, ip[0]? with
  | some o4, some o3, some o2, some o1 =>
    some (key ++ "." ++ toString o4 ++ "." ++ toString o3 ++ "." ++ toString o2 ++ "."
      ++ toString o1 ++ ".dnsbl.httpbl.org")
  | _, _, _, _ => none

/-- One iteration of the `resolver` loop, lines 68-83, for the address `ip` received
from `in`. The function `lookup` stands for `net.LookupIP`: it answers with an error
or with a list of addresses. The result is the record `d` as far as it was filled in,
and the panic that interrupted the iteration, if any; the record is sent on `out`
(line 85) only when there is no panic. -/
def resolverBody (key : String) (lookup : String → Except String (List IP)) (ip : IP) :
    ipData × Option Panic :=
  let d : ipData := { ip := ip, err := none, listed := false, score := 0, days := 0, «class» := 0 }
  match queryName key ip with
  | none => (d, some Panic.indexOutOfRange)
  | some addr =>
    match lookup addr with
    | Except.error e => ({ d with err := some e }, none)
    | Except.ok ips =>
      match ips with
      | [] => ({ d with listed := false }, none)
      | first :: _ =>
        let d := { d with listed := true }
        let first := IP.To4 first
        match first[1]? with
        | none => (d, some Panic.indexOutOfRange)
        | some b1 =>
          let d := { d with days := b1 }
          match first[2]? with
          | none => (d, some Panic.indexOutOfRange)
          | some b2 =>
            let d := { d with score := b2 }
            match first[3]? with
            | none => (d, some Panic.indexOutOfRange)
            | some b3 => ({ d with «class» := b3 }, none)

/-! ## The consumer loop of main (lines 165-175) -/

/-- The text one iteration of the consumer loop writes to the standard output for the
record `d` received from `out` (lines 167-174). -/
def consumerLine (d : ipData) : String :=
  let s := IP.String d.ip ++ ","
  if d.err.isSome || !d.listed then s ++ ",,\n"
  else s ++ toString d.days ++ "," ++ toString d.score ++ "," ++ honeyClass.String d.class ++ "\n"

/-! ## The goroutines of main (lines 148-178)

`in` and `out` are unbuffered channels, so a send and a receive on the same channel
happen together, as one event. -/

/-- Where a `resolver` goroutine stands. -/
inductive WorkerState
  /-- Blocked in `for ip := range in` (line 67). -/
  | receiving
  /-- Holds the address received from `in`, about to run lines 68-83. -/
  | resolving (ip : IP)
  /-- Blocked in `out <- d` (line 85). -/
  | sending (d : ipData)
  /-- The loop is over and `wg.Done()` was called (line 87). -/
  | exited
deriving DecidableEq, Repr

/-- The state of the process from line 148 on. -/
structure Pipeline where
  /-- The addresses of `exitNodes` the feeder has not sent yet (lines 158-160). -/
  pending : List IP
  /-- The feeder did `close(in)` and `wg.Done()` (lines 161-162). -/
  inClosed : Bool
  /-- The `resolver` goroutines started at lines 151-154. -/
  workers : List WorkerState
  /-- The records `main` received from `out` (line 166), in the order of arrival. -/
  received : List ipData
  /-- The value `len(exitNodes)`, the bound of the consumer loop (line 165). -/
  total : Nat
  /-- A goroutine panicked: the process is dead. -/
  panicked : Bool
  /-- The function `main` passed `wg.Wait()` and did `close(out)` (lines 177-178). -/
  finished : Bool
deriving DecidableEq, Repr

/-- What the scheduler can let happen next. -/
inductive Event
  /-- The feeder's `in <- addr` meets the receive of worker `w`. -/
  | feed (w : Nat)
  /-- Worker `w` runs lines 68-83 on the address it holds. -/
  | resolve (w : Nat)
  /-- The `out <- d` of worker `w` meets `d := <-out` in `main`, which prints the line. -/
  | deliver (w : Nat)
  /-- The feeder runs `close(in)` and `wg.Done()`. -/
  | closeIn
  /-- Worker `w` finds `in` closed, leaves its loop and calls `wg.Done()`. -/
  | exit (w : Nat)
  /-- The function `main`, its loop over, passes `wg.Wait()` and closes `out`. -/
  | finish
deriving DecidableEq, Repr

/-- The state after lines 148-163: `workers` goroutines wait on `in`, the feeder has
all of `exitNodes` to send. A count that is zero or negative starts no worker. -/
def Pipeline.init (exitNodes : List IP) (workers : Int) : Pipeline :=
  { pending := exitNodes, inClosed := false,
    workers := List.replicate workers.toNat WorkerState.receiving,
    received := [], total := exitNodes.length, panicked := false, finished := false }

/-- One event of the process; `none` when the event cannot happen in the state `s`. -/
def Pipeline.step (key : String) (lookup : String → Except String (List IP)) (s : Pipeline)
    (e : Event) : Option Pipeline :=
  if s.panicked || s.finished then none
  else
    match e with
    | Event.feed w =>
      match s.pending, s.workers[w]? with
      | addr :: rest, some WorkerState.receiving =>
        some { s with pending := rest, workers := s.workers.set w (WorkerState.resolving addr) }
      | _, _ => none
    | Event.resolve w =>
      match s.workers[w]? with
      | some (WorkerState.resolving ip) =>
        match resolverBody key lookup ip with
        | (d, none) => some { s with workers := s.workers.set w (WorkerState.sending d) }
        | (_, some _) => some { s with panicked := true }
      | _ => none
    | Event.deliver w =>
      match s.workers[w]? with
      | some (WorkerState.sending d) =>
        if s.received.length < s.total then
          some { s with received := s.received ++ [d],
                        workers := s.workers.set w WorkerState.receiving }
        else none
      | _ => none
    | Event.closeIn =>
      if s.pending = [] ∧ s.inClosed = false then some { s with inClosed := true } else none
    | Event.exit w =>
      match s.workers[w]? with
      | some WorkerState.receiving =>
        if s.inClosed then some { s with workers := s.workers.set w WorkerState.exited }
        else none
      | _ => none
    | Event.finish =>
      if s.received.length = s.total ∧ s.inClosed = true
          ∧ s.workers.all (fun w => decide (w = WorkerState.exited)) = true then
        some { s with finished := true }
      else none

/-- A schedule, event after event; `none` when one of its events cannot happen. -/
def Pipeline.run (key : String) (lookup : String → Except String (List IP)) :
    Pipeline → List Event → Option Pipeline
  | s, [] => some s
  | s, e :: es =>
    match Pipeline.step key lookup s e with
    | none => none
    | some t => Pipeline.run key lookup t es

/-- The lines on the standard output, in the order they were printed. -/
def Pipeline.output (s : Pipeline) : List String :=
  s.received.map consumerLine

/-- The address a goroutine holds between its receive on `in` and its send on `out`. -/
def WorkerState.held : WorkerState → List IP
  | WorkerState.resolving ip => [ip]
  | WorkerState.sending d => [d.ip]
  | _ => []

/-- The addresses in flight, worker after worker. -/
def heldBy (ws : List WorkerState) : List IP :=
  (ws.map WorkerState.held).flatten

/-- The weight of a goroutine in the termination measure: the number of events it
can still take part in before it needs a new address. -/
def WorkerState.weight : WorkerState → Nat
  | WorkerState.receiving => 1
  | WorkerState.resolving _ => 3
  | WorkerState.sending _ => 2
  | WorkerState.exited => 0

/-- The termination measure of the process: every event makes it smaller. -/
def Pipeline.measure (s : Pipeline) : Nat :=
  4 * s.pending.length + (s.workers.map WorkerState.weight).sum
    + (if s.inClosed then 0 else 1) + (if s.panicked then 0 else 1)
    + (if s.finished then 0 else 1)

/-- The record a worker sends for `ip` when its iteration does not panic. -/
def recordOf (key : String) (lookup : String → Except String (List IP)) (ip : IP) : ipData :=
  (resolverBody key lookup ip).1

/-- What holds of a goroutine in a reachable state: a record waiting to be sent is the
one lines 68-83 build for its address, and a goroutine has left its loop only after
`in` was closed. -/
def WorkerState.ok (key : String) (lookup : String → Except String (List IP))
    (inClosed : Bool) : WorkerState → Prop
  | WorkerState.sending d => resolverBody key lookup d.ip = (d, none)
  | WorkerState.exited => inClosed = true
  | _ => True

/-- The invariant of the process started on `exitNodes` with `workers` goroutines. -/
structure Pipeline.Inv (key : String) (lookup : String → Except String (List IP))
    (exitNodes : List IP) (workers : Int) (s : Pipeline) : Prop where
  total_eq : s.total = exitNodes.length
  workers_len : s.workers.length = workers.toNat
  accounted : (s.received.map ipData.ip ++ heldBy s.workers ++ s.pending).Perm exitNodes
  closed_pending : s.inClosed = true → s.pending = []
  worker_ok : ∀ w ∈ s.workers, WorkerState.ok key lookup s.inClosed w
  received_ok : ∀ d ∈ s.received, resolverBody key lookup d.ip = (d, none)
  finished_all : s.finished = true →
    s.received.length = s.total ∧ s.inClosed = true ∧ ∀ w ∈ s.workers, w = WorkerState.exited

/-! ## The label of a classification -/

/-- C1: for every value `h`, the label `honeyClass.String h` is the three sub-fields
joined by two commas, the first being `suspicious` when the bit of value 1 is set
(`testBit 0`), the second `harvester` when the bit of value 2 is set (`testBit 1`), the
third `comment spammer` when the bit of value 4 is set (`testBit 2`), each empty
otherwise; the label has exactly two commas, the label of 0 is `,,` and the label of 7
carries the three texts. -/
theorem honeyClass_String_fields (h : Nat) :
    honeyClass.String h
        = (if h.testBit 0 then "suspicious" else "") ++ "," ++
          (if h.testBit 1 then "harvester" else "") ++ "," ++
          (if h.testBit 2 then "comment spammer" else "")
      ∧ commaCount (honeyClass.String h) = 2
      ∧ honeyClass.String 0 = ",,"
      ∧ honeyClass.String 7 = "suspicious,harvester,comment spammer" := by
  have e1 : h &&& 1 = (h.testBit 0).toNat := by simpa using Nat.and_two_pow h 0
  have e2 : h &&& 2 = (h.testBit 1).toNat * 2 := by simpa using Nat.and_two_pow h 1
  have e4 : h &&& 4 = (h.testBit 2).toNat * 4 := by simpa using Nat.and_two_pow h 2
  have key : honeyClass.String h
        = (if h.testBit 0 then "suspicious" else "") ++ "," ++
          (if h.testBit 1 then "harvester" else "") ++ "," ++
          (if h.testBit 2 then "comment spammer" else "") := by
    by_cases h0 : h = 0
    · subst h0
      decide
    · simp only [honeyClass.String, CLASS_SUSPICIOUS, CLASS_HARVESTER, CLASS_SPAMMER, h0,
        if_false, e1, e2, e4]
      cases h.testBit 0 <;> cases h.testBit 1 <;> cases h.testBit 2 <;> decide
  refine ⟨key, ?_, by decide, by decide⟩
  rw [key]
  cases h.testBit 0 <;> cases h.testBit 1 <;> cases h.testBit 2 <;> decide

/-- C2: the label is a lossless encoding of the eight values 0 to 7: the decoder
`decodeLabel` gives back `v` from `honeyClass.String v` for every `v` below 8, and two
values below 8 with the same label are equal. -/
theorem honeyClass_String_roundtrip :
    (∀ v, v < 8 → decodeLabel (honeyClass.String v) = v)
      ∧ ∀ u v, u < 8 → v < 8 → honeyClass.String u = honeyClass.String v → u = v := by
  have dec : ∀ v, v < 8 → decodeLabel (honeyClass.String v) = v := by decide
  refine ⟨dec, ?_⟩
  intro u v hu hv huv
  rw [← dec u hu, ← dec v hv, huv]

/-- The round trip at 5, and the labels of 5 and 3 told apart. -/
theorem honeyClass_String_roundtrip_witness :
    decodeLabel (honeyClass.String 5) = 5 ∧ honeyClass.String 5 ≠ honeyClass.String 3 :=
  ⟨honeyClass_String_roundtrip.1 5 (by decide),
    fun h => absurd (honeyClass_String_roundtrip.2 5 3 (by decide) (by decide) h) (by decide)⟩

/-! ## The lines of the consumer loop -/

/-- C3: for a record with an error or not listed, whatever its other fields, the
consumer loop prints the address text, three commas and a newline; for the address
1.2.3.4 not listed the line is `1.2.3.4,,,`. -/
theorem consumerLine_unlisted :
    (∀ d : ipData, d.err ≠ none ∨ d.listed = false →
        consumerLine d = IP.String d.ip ++ ",,," ++ "\n")
      ∧ ∀ days score cls,
          consumerLine { ip := [1, 2, 3, 4], err := none, listed := false, score := score,
                         days := days, «class» := cls } = "1.2.3.4,,,\n" := by
  have gen : ∀ d : ipData, d.err ≠ none ∨ d.listed = false →
      consumerLine d = IP.String d.ip ++ ",,," ++ "\n" := by
    intro d hd
    have hc : (d.err.isSome || !d.listed) = true := by
      rcases hd with h | h
      · cases he : d.err with
        | none => exact absurd he h
        | some e => simp
      · simp [h]
    simp only [consumerLine, hc, if_true, String.append_assoc]
    rfl
  refine ⟨gen, ?_⟩
  intro days score cls
  rw [gen _ (Or.inr rfl)]
  show IP.String [1, 2, 3, 4] ++ ",,," ++ "\n" = "1.2.3.4,,,\n"
  decide

/-- The line of a record with a lookup error and fields that are not zero. -/
theorem consumerLine_unlisted_witness :
    consumerLine { ip := [10, 0, 0, 7], err := some "no such host", listed := true,
                   score := 9, days := 3, «class» := 7 } = "10.0.0.7,,,\n" :=
  (consumerLine_unlisted.1
    { ip := [10, 0, 0, 7], err := some "no such host", listed := true,
      score := 9, days := 3, «class» := 7 } (Or.inl (by decide))).trans (by decide)

/-- C4: for a record with no error and listed, the consumer loop prints the address
text, the days in decimal, the score in decimal and the label of the class, in this
order and separated by commas; for 8.8.8.8 with days 5, score 20 and class 3 the line
is `8.8.8.8,5,20,suspicious,harvester,`. -/
theorem consumerLine_listed :
    (∀ d : ipData, d.err = none → d.listed = true →
        consumerLine d = IP.String d.ip ++ "," ++ toString d.days ++ "," ++ toString d.score
          ++ "," ++ honeyClass.String d.class ++ "\n")
      ∧ consumerLine { ip := [8, 8, 8, 8], err := none, listed := true, score := 20,
                       days := 5, «class» := 3 } = "8.8.8.8,5,20,suspicious,harvester,\n" := by
  refine ⟨?_, by decide⟩
  intro d he hl
  simp [consumerLine, he, hl]

/-- The line of a listed record with the three flags. -/
theorem consumerLine_listed_witness :
    consumerLine { ip := [127, 0, 0, 1], err := none, listed := true, score := 255,
                   days := 0, «class» := 7 }
      = "127.0.0.1,0,255,suspicious,harvester,comment spammer\n" :=
  (consumerLine_listed.1
    { ip := [127, 0, 0, 1], err := none, listed := true, score := 255,
      days := 0, «class» := 7 } rfl rfl).trans (by decide)

/-! ## The resolver -/

/-- The fields of the record an iteration starts from (line 68). -/
theorem resolverBody_of_queryName_none (key : String)
    (lookup : String → Except String (List IP)) (ip : IP) (h : queryName key ip = none) :
    resolverBody key lookup ip
      = ({ ip := ip, err := none, listed := false, score := 0, days := 0, «class» := 0 },
          some Panic.indexOutOfRange) := by
  simp [resolverBody, h]

/-- The query name exists exactly for the slices of four bytes or more. -/
theorem queryName_isSome_iff (key : String) (ip : IP) :
    (queryName key ip).isSome = true ↔ 4 ≤ ip.length := by
  match ip with
  | [] => simp [queryName]
  | [_] => simp [queryName]
  | [_, _] => simp [queryName]
  | [_, _, _] => simp [queryName]
  | _ :: _ :: _ :: _ :: _ => simp [queryName]

/-- C5: when the lookup succeeds with a list whose first address is the four bytes
`b0, b1, b2, b3`, the record the resolver builds is listed, with days `b1`, score `b2`
and class `b3`, whatever `b0` and the rest of the list are; the iteration does not
panic, so the record is sent. -/
theorem resolverBody_listed (key : String) (lookup : String → Except String (List IP))
    (ip : IP) (addr : String) (b0 b1 b2 b3 : Nat) (rest : List IP)
    (hq : queryName key ip = some addr)
    (hl : lookup addr = Except.ok ([b0, b1, b2, b3] :: rest)) :
    resolverBody key lookup ip
      = ({ ip := ip, err := none, listed := true, score := b2, days := b1, «class» := b3 },
          none) := by
  simp [resolverBody, hq, hl, IP.To4]

/-- A lookup that answers 127.5.20.3 and one more address, for the address 1.2.3.4. -/
theorem resolverBody_listed_witness :
    resolverBody "abc" (fun _ => Except.ok [[127, 5, 20, 3], [9, 9, 9, 9]]) [1, 2, 3, 4]
      = ({ ip := [1, 2, 3, 4], err := none, listed := true, score := 20, days := 5,
           «class» := 3 }, none) :=
  resolverBody_listed "abc" (fun _ => Except.ok [[127, 5, 20, 3], [9, 9, 9, 9]]) [1, 2, 3, 4]
    "abc.4.3.2.1.dnsbl.httpbl.org" 127 5 20 3 [[9, 9, 9, 9]] (by decide) rfl

/-- C6: for every key and every address of four octets `o1, o2, o3, o4`, the query
name is the key, the four octets in decimal in the reverse order and the domain
`dnsbl.httpbl.org`, joined by dots, whatever the key is; and this name is the only
place where the resolver consults the lookup. -/
theorem queryName_reversed (key : String) (o1 o2 o3 o4 : Nat) :
    queryName key [o1, o2, o3, o4]
        = some (key ++ "." ++ toString o4 ++ "." ++ toString o3 ++ "." ++ toString o2 ++ "."
            ++ toString o1 ++ ".dnsbl.httpbl.org")
      ∧ ∀ lookup lookup2 : String → Except String (List IP),
          lookup (key ++ "." ++ toString o4 ++ "." ++ toString o3 ++ "." ++ toString o2 ++ "."
              ++ toString o1 ++ ".dnsbl.httpbl.org")
            = lookup2 (key ++ "." ++ toString o4 ++ "." ++ toString o3 ++ "." ++ toString o2
              ++ "." ++ toString o1 ++ ".dnsbl.httpbl.org") →
          resolverBody key lookup [o1, o2, o3, o4] = resolverBody key lookup2 [o1, o2, o3, o4] := by
  have hq : queryName key [o1, o2, o3, o4]
      = some (key ++ "." ++ toString o4 ++ "." ++ toString o3 ++ "." ++ toString o2 ++ "."
            ++ toString o1 ++ ".dnsbl.httpbl.org") := rfl
  refine ⟨hq, ?_⟩
  intro lookup lookup2 h
  simp only [resolverBody, hq, h]

/-- The name for the key `abc` and the address 1.2.3.4, and two lookups that differ
only at other names. -/
theorem queryName_reversed_witness :
    queryName "abc" [1, 2, 3, 4] = some "abc.4.3.2.1.dnsbl.httpbl.org"
      ∧ resolverBody "abc" (fun _ => Except.ok []) [1, 2, 3, 4]
          = resolverBody "abc"
              (fun q => if q = "abc.4.3.2.1.dnsbl.httpbl.org" then Except.ok []
                        else Except.error "other") [1, 2, 3, 4] :=
  ⟨(queryName_reversed "abc" 1 2 3 4).1.trans (by decide),
    (queryName_reversed "abc" 1 2 3 4).2 _ _ (by rw [if_pos (by decide)])⟩

/-- C7 (evaluation of the code at the failing input): the lookup succeeds and its
first address is the 16 bytes of 2001:db8::1, which `To4` turns into `nil`; the
iteration panics on `ips[0][1]` with the error field not set, so no record is sent. -/
theorem resolverBody_panics_on_ipv6 :
    IP.To4 [32, 1, 13, 184, 0, 0, 0, 0, 0, 0, 0, 0, 0, 0, 0, 1] = []
      ∧ resolverBody "abc"
          (fun _ => Except.ok [[32, 1, 13, 184, 0, 0, 0, 0, 0, 0, 0, 0, 0, 0, 0, 1]])
          [1, 2, 3, 4]
        = ({ ip := [1, 2, 3, 4], err := none, listed := true, score := 0, days := 0,
             «class» := 0 }, some Panic.indexOutOfRange) := by
  decide

/-- C8: for every address of four bytes or more and every answer of the lookup, the
record the resolver builds has the error set exactly when the lookup failed and is
listed exactly when the lookup succeeded with at least one address; after a failed
lookup the record carries the error and is not listed, after a lookup with no address
it is not listed and has no error, and in both cases it is sent. -/
theorem resolverBody_err_listed (key : String) (lookup : String → Except String (List IP))
    (ip : IP) (addr : String) (hq : queryName key ip = some addr) :
    ((resolverBody key lookup ip).1.err ≠ none ↔ ∃ e, lookup addr = Except.error e)
      ∧ ((resolverBody key lookup ip).1.listed = true
          ↔ ∃ first rest, lookup addr = Except.ok (first :: rest))
      ∧ (∀ e, lookup addr = Except.error e →
          resolverBody key lookup ip
            = ({ ip := ip, err := some e, listed := false, score := 0, days := 0,
                 «class» := 0 }, none))
      ∧ (lookup addr = Except.ok [] →
          resolverBody key lookup ip
            = ({ ip := ip, err := none, listed := false, score := 0, days := 0,
                 «class» := 0 }, none)) := by
  cases hl : lookup addr with
  | error e => simp [resolverBody, hq, hl]
  | ok ips =>
    cases ips with
    | nil => simp [resolverBody, hq, hl]
    | cons first rest =>
      simp only [resolverBody, hq, hl]
      cases h1 : (IP.To4 first)[1]? <;> cases h2 : (IP.To4 first)[2]?
        <;> cases h3 : (IP.To4 first)[3]? <;> simp

/-- A failed lookup for the address 1.2.3.4: the record has the error and is not listed. -/
theorem resolverBody_err_listed_witness :
    resolverBody "abc" (fun _ => Except.error "no such host") [1, 2, 3, 4]
      = ({ ip := [1, 2, 3, 4], err := some "no such host", listed := false, score := 0,
           days := 0, «class» := 0 }, none) :=
  (resolverBody_err_listed "abc" (fun _ => Except.error "no such host") [1, 2, 3, 4]
    "abc.4.3.2.1.dnsbl.httpbl.org" (by decide)).2.2.1 "no such host" rfl

/-! ## The goroutines: lemmas on the list of workers -/

theorem heldBy_nil : heldBy [] = [] := rfl

theorem heldBy_cons (x : WorkerState) (ws : List WorkerState) :
    heldBy (x :: ws) = x.held ++ heldBy ws := by
  simp [heldBy]

/-- Replacing the state of one worker moves its held address only. -/
theorem heldBy_set_perm (y : WorkerState) :
    ∀ (ws : List WorkerState) (w : Nat) (x : WorkerState), ws[w]? = some x →
      (heldBy (ws.set w y) ++ x.held).Perm (heldBy ws ++ y.held)
  | [], w, x, h => by simp at h
  | z :: ws, 0, x, h => by
    simp at h
    subst h
    refine List.perm_iff_count.mpr (fun a => ?_)
    simp only [List.set_cons_zero, heldBy_cons, List.count_append]
    omega
  | z :: ws, w + 1, x, h => by
    simp at h
    have ih := fun a => List.perm_iff_count.mp (heldBy_set_perm y ws w x h) a
    refine List.perm_iff_count.mpr (fun a => ?_)
    have := ih a
    simp only [List.set_cons_succ, heldBy_cons, List.count_append] at this ⊢
    omega

/-- Replacing the state of one worker changes the sum of the weights by the difference
of the two weights. -/
theorem weight_set_sum (y : WorkerState) :
    ∀ (ws : List WorkerState) (w : Nat) (x : WorkerState), ws[w]? = some x →
      ((ws.set w y).map WorkerState.weight).sum + x.weight
        = (ws.map WorkerState.weight).sum + y.weight
  | [], w, x, h => by simp at h
  | z :: ws, 0, x, h => by
    simp at h
    subst h
    simp only [List.set_cons_zero, List.map_cons, List.sum_cons]
    omega
  | z :: ws, w + 1, x, h => by
    simp at h
    have ih := weight_set_sum y ws w x h
    simp only [List.set_cons_succ, List.map_cons, List.sum_cons]
    omega

/-- A property of all workers survives the replacement of one of them by a worker
that has it. -/
theorem forall_mem_set {P : WorkerState → Prop} (ws : List WorkerState) (w : Nat)
    (y : WorkerState) (hall : ∀ x ∈ ws, P x) (hy : P y) : ∀ x ∈ ws.set w y, P x := by
  intro x hx
  rcases List.mem_or_eq_of_mem_set hx with h | h
  · exact hall x h
  · exact h ▸ hy

theorem WorkerState.ok_mono (key : String) (lookup : String → Except String (List IP))
    (w : WorkerState) (h : WorkerState.ok key lookup false w) :
    WorkerState.ok key lookup true w := by
  cases w <;> simp_all [WorkerState.ok]

/-- The record of an iteration carries the address the iteration received. -/
theorem resolverBody_ip (key : String) (lookup : String → Except String (List IP)) (ip : IP) :
    (resolverBody key lookup ip).1.ip = ip := by
  unfold resolverBody
  simp only
  repeat' split
  all_goals rfl

/-- The workers that hold no address contribute nothing to the addresses in flight. -/
theorem heldBy_eq_nil_of_exited (ws : List WorkerState)
    (h : ∀ w ∈ ws, w = WorkerState.exited) : heldBy ws = [] := by
  induction ws with
  | nil => rfl
  | cons x ws ih =>
    have hx : x = WorkerState.exited := h x (List.mem_cons_self _ _)
    have := ih (fun w hw => h w (List.mem_cons_of_mem _ hw))
    simp [heldBy_cons, this, hx, WorkerState.held]

/-- An event can only happen while the process is neither dead nor finished. -/
theorem Pipeline.step_alive (key : String) (lookup : String → Except String (List IP))
    (s t : Pipeline) (e : Event) (hstep : Pipeline.step key lookup s e = some t) :
    s.panicked = false ∧ s.finished = false := by
  unfold Pipeline.step at hstep
  split at hstep
  · simp at hstep
  · rename_i h
    simpa using h

/-! ## The invariant -/

theorem Pipeline.init_inv (key : String) (lookup : String → Except String (List IP))
    (exitNodes : List IP) (workers : Int) :
    Pipeline.Inv key lookup exitNodes workers (Pipeline.init exitNodes workers) where
  total_eq := rfl
  workers_len := by simp [Pipeline.init]
  accounted := by
    have h : heldBy (List.replicate workers.toNat WorkerState.receiving) = [] := by
      induction workers.toNat with
      | zero => rfl
      | succ n ih => simp [List.replicate_succ, heldBy_cons, ih, WorkerState.held]
    simp [Pipeline.init, h]
  closed_pending := by simp [Pipeline.init]
  worker_ok := by
    intro w hw
    have := List.eq_of_mem_replicate hw
    subst this
    trivial
  received_ok := by simp [Pipeline.init]
  finished_all := by simp [Pipeline.init]

theorem Pipeline.step_inv (key : String) (lookup : String → Except String (List IP))
    (exitNodes : List IP) (workers : Int) (s t : Pipeline) (e : Event)
    (hinv : Pipeline.Inv key lookup exitNodes workers s)
    (hstep : Pipeline.step key lookup s e = some t) :
    Pipeline.Inv key lookup exitNodes workers t := by
  obtain ⟨hp, hf⟩ := Pipeline.step_alive key lookup s t e hstep
  have hacc := fun a => (List.perm_iff_count.mp hinv.accounted) a
  simp only [Pipeline.step, hp, hf, Bool.or_self, Bool.false_eq_true, if_false] at hstep
  cases e with
  | feed w =>
    simp only at hstep
    split at hstep
    · rename_i addr rest hpend hw
      injection hstep with hstep
      subst hstep
      refine ⟨hinv.total_eq, by simpa using hinv.workers_len, ?_, ?_, ?_, hinv.received_ok, ?_⟩
      · refine List.perm_iff_count.mpr (fun a => ?_)
        have hsplit : (s.received.map ipData.ip ++ heldBy s.workers ++ ([addr] ++ rest)).Perm
            exitNodes := by
          have := hinv.accounted
          rw [hpend] at this
          exact this
        have h1 := List.perm_iff_count.mp hsplit a
        have h2 := List.perm_iff_count.mp
          (heldBy_set_perm (WorkerState.resolving addr) s.workers w _ hw) a
        simp only [List.count_append, WorkerState.held, List.count_nil] at h1 h2 ⊢
        omega
      · intro hc
        have := hinv.closed_pending hc
        rw [hpend] at this
        exact absurd this (by simp)
      · exact forall_mem_set s.workers w _ hinv.worker_ok trivial
      · intro hfin
        simp [hf] at hfin
    · simp at hstep
  | resolve w =>
    simp only at hstep
    split at hstep
    · rename_i ip hw
      split at hstep
      · rename_i d hres
        injection hstep with hstep
        subst hstep
        have hip : d.ip = ip := by
          have := resolverBody_ip key lookup ip
          rw [hres] at this
          exact this
        refine ⟨hinv.total_eq, by simpa using hinv.workers_len, ?_, hinv.closed_pending, ?_,
          hinv.received_ok, ?_⟩
        · refine List.perm_iff_count.mpr (fun a => ?_)
          have h1 := hacc a
          have h2 := List.perm_iff_count.mp (heldBy_set_perm (WorkerState.sending d) s.workers w _ hw) a
          simp only [List.count_append, WorkerState.held, hip] at h1 h2 ⊢
          omega
        · refine forall_mem_set s.workers w _ hinv.worker_ok ?_
          show resolverBody key lookup d.ip = (d, none)
          rw [hip, hres]
        · intro hfin
          simp [hf] at hfin
      · injection hstep with hstep
        subst hstep
        exact ⟨hinv.total_eq, hinv.workers_len, hinv.accounted, hinv.closed_pending,
          hinv.worker_ok, hinv.received_ok, by intro hfin; simp [hf] at hfin⟩
    · simp at hstep
  | deliver w =>
    simp only at hstep
    split at hstep
    · rename_i d hw
      split at hstep
      · injection hstep with hstep
        subst hstep
        have hd : resolverBody key lookup d.ip = (d, none) :=
          hinv.worker_ok _ (List.getElem?_mem hw)
        refine ⟨hinv.total_eq, by simpa using hinv.workers_len, ?_, hinv.closed_pending, ?_,
          ?_, ?_⟩
        · refine List.perm_iff_count.mpr (fun a => ?_)
          have h1 := hacc a
          have h2 := List.perm_iff_count.mp (heldBy_set_perm WorkerState.receiving s.workers w _ hw) a
          simp only [List.count_append, WorkerState.held, List.map_append, List.map_cons,
            List.map_nil, List.count_nil] at h1 h2 ⊢
          omega
        · exact forall_mem_set s.workers w _ hinv.worker_ok trivial
        · intro x hx
          rcases List.mem_append.mp hx with h | h
          · exact hinv.received_ok x h
          · rw [List.mem_singleton.mp h]
            exact hd
        · intro hfin
          simp [hf] at hfin
      · simp at hstep
    · simp at hstep
  | closeIn =>
    simp only at hstep
    split at hstep
    · rename_i hg
      injection hstep with hstep
      subst hstep
      refine ⟨hinv.total_eq, hinv.workers_len, hinv.accounted, fun _ => hg.1, ?_,
        hinv.received_ok, by intro hfin; simp [hf] at hfin⟩
      intro w hw
      have := hinv.worker_ok w hw
      rw [hg.2] at this
      exact WorkerState.ok_mono key lookup w this
    · simp at hstep
  | exit w =>
    simp only at hstep
    split at hstep
    · rename_i hw
      split at hstep
      · rename_i hc
        injection hstep with hstep
        subst hstep
        refine ⟨hinv.total_eq, by simpa using hinv.workers_len, ?_, hinv.closed_pending, ?_,
          hinv.received_ok, by intro hfin; simp [hf] at hfin⟩
        · refine List.perm_iff_count.mpr (fun a => ?_)
          have h1 := hacc a
          have h2 := List.perm_iff_count.mp (heldBy_set_perm WorkerState.exited s.workers w _ hw) a
          simp only [List.count_append, WorkerState.held, List.count_nil] at h1 h2 ⊢
          omega
        · exact forall_mem_set s.workers w _ hinv.worker_ok hc
      · simp at hstep
    · simp at hstep
  | finish =>
    simp only at hstep
    split at hstep
    · rename_i hg
      injection hstep with hstep
      subst hstep
      refine ⟨hinv.total_eq, hinv.workers_len, hinv.accounted, hinv.closed_pending,
        hinv.worker_ok, hinv.received_ok, fun _ => ⟨hg.1, hg.2.1, ?_⟩⟩
      intro w hw
      have := List.all_eq_true.mp hg.2.2 w hw
      simpa using this
    · simp at hstep

theorem Pipeline.run_inv (key : String) (lookup : String → Except String (List IP))
    (exitNodes : List IP) (workers : Int) :
    ∀ (es : List Event) (s t : Pipeline), Pipeline.Inv key lookup exitNodes workers s →
      Pipeline.run key lookup s es = some t → Pipeline.Inv key lookup exitNodes workers t
  | [], s, t, hinv, hrun => by
    simp [Pipeline.run] at hrun
    exact hrun ▸ hinv
  | e :: es, s, t, hinv, hrun => by
    simp only [Pipeline.run] at hrun
    split at hrun
    · simp at hrun
    · rename_i u hu
      exact Pipeline.run_inv key lookup exitNodes workers es u t
        (Pipeline.step_inv key lookup exitNodes workers s u e hinv hu) hrun

/-! ## The events, case by case -/

/-- What an event that happens does to the state. -/
theorem Pipeline.step_cases (key : String) (lookup : String → Except String (List IP))
    (s t : Pipeline) (e : Event) (hstep : Pipeline.step key lookup s e = some t) :
    (∃ w addr rest, e = Event.feed w ∧ s.pending = addr :: rest
        ∧ s.workers[w]? = some WorkerState.receiving
        ∧ t = { s with pending := rest,
                       workers := s.workers.set w (WorkerState.resolving addr) })
      ∨ (∃ w ip d, e = Event.resolve w ∧ s.workers[w]? = some (WorkerState.resolving ip)
        ∧ resolverBody key lookup ip = (d, none)
        ∧ t = { s with workers := s.workers.set w (WorkerState.sending d) })
      ∨ (∃ w ip d p, e = Event.resolve w ∧ s.workers[w]? = some (WorkerState.resolving ip)
        ∧ resolverBody key lookup ip = (d, some p) ∧ t = { s with panicked := true })
      ∨ (∃ w d, e = Event.deliver w ∧ s.workers[w]? = some (WorkerState.sending d)
        ∧ s.received.length < s.total
        ∧ t = { s with received := s.received ++ [d],
                       workers := s.workers.set w WorkerState.receiving })
      ∨ (e = Event.closeIn ∧ s.pending = [] ∧ s.inClosed = false
        ∧ t = { s with inClosed := true })
      ∨ (∃ w, e = Event.exit w ∧ s.workers[w]? = some WorkerState.receiving
        ∧ s.inClosed = true ∧ t = { s with workers := s.workers.set w WorkerState.exited })
      ∨ (e = Event.finish ∧ s.received.length = s.total ∧ s.inClosed = true
        ∧ (∀ w ∈ s.workers, w = WorkerState.exited) ∧ t = { s with finished := true }) := by
  obtain ⟨hp, hf⟩ := Pipeline.step_alive key lookup s t e hstep
  have hg : ¬ ((s.panicked || s.finished) = true) := by simp [hp, hf]
  simp only [Pipeline.step, if_neg hg] at hstep
  cases e with
  | feed w =>
    simp only at hstep
    split at hstep
    · rename_i addr rest hpend hw
      injection hstep with hstep
      exact Or.inl ⟨w, addr, rest, rfl, hpend, hw, hstep.symm⟩
    · simp at hstep
  | resolve w =>
    simp only at hstep
    split at hstep
    · rename_i ip hw
      split at hstep
      · rename_i d hres
        injection hstep with hstep
        exact Or.inr (Or.inl ⟨w, ip, d, rfl, hw, hres, hstep.symm⟩)
      · rename_i d p hres
        injection hstep with hstep
        exact Or.inr (Or.inr (Or.inl ⟨w, ip, d, p, rfl, hw, hres, hstep.symm⟩))
    · simp at hstep
  | deliver w =>
    simp only at hstep
    split at hstep
    · rename_i d hw
      split at hstep
      · rename_i hlt
        injection hstep with hstep
        exact Or.inr (Or.inr (Or.inr (Or.inl ⟨w, d, rfl, hw, hlt, hstep.symm⟩)))
      · simp at hstep
    · simp at hstep
  | closeIn =>
    simp only at hstep
    split at hstep
    · rename_i hg
      injection hstep with hstep
      exact Or.inr (Or.inr (Or.inr (Or.inr (Or.inl ⟨rfl, hg.1, hg.2, hstep.symm⟩))))
    · simp at hstep
  | exit w =>
    simp only at hstep
    split at hstep
    · rename_i hw
      split at hstep
      · rename_i hc
        injection hstep with hstep
        exact Or.inr (Or.inr (Or.inr (Or.inr (Or.inr (Or.inl ⟨w, rfl, hw, hc, hstep.symm⟩)))))
      · simp at hstep
    · simp at hstep
  | finish =>
    simp only at hstep
    split at hstep
    · rename_i hg
      injection hstep with hstep
      refine Or.inr (Or.inr (Or.inr (Or.inr (Or.inr (Or.inr
        ⟨rfl, hg.1, hg.2.1, ?_, hstep.symm⟩)))))
      intro w hw
      simpa using List.all_eq_true.mp hg.2.2 w hw
    · simp at hstep

/-! ## Termination: every event makes the measure smaller -/

theorem Pipeline.step_measure (key : String) (lookup : String → Except String (List IP))
    (s t : Pipeline) (e : Event) (hstep : Pipeline.step key lookup s e = some t) :
    t.measure < s.measure := by
  obtain ⟨hp, hf⟩ := Pipeline.step_alive key lookup s t e hstep
  rcases Pipeline.step_cases key lookup s t e hstep with
    ⟨w, addr, rest, -, hpend, hw, rfl⟩ | ⟨w, ip, d, -, hw, -, rfl⟩ | ⟨w, ip, d, p, -, hw, -, rfl⟩
    | ⟨w, d, -, hw, -, rfl⟩ | ⟨-, -, hc, rfl⟩ | ⟨w, -, hw, -, rfl⟩ | ⟨-, -, -, -, rfl⟩
  · have := weight_set_sum (WorkerState.resolving addr) s.workers w _ hw
    simp only [Pipeline.measure, hpend, List.length_cons, WorkerState.weight] at this ⊢
    omega
  · have := weight_set_sum (WorkerState.sending d) s.workers w _ hw
    simp only [Pipeline.measure, WorkerState.weight] at this ⊢
    omega
  · simp [Pipeline.measure, hp]
  · have := weight_set_sum WorkerState.receiving s.workers w _ hw
    simp only [Pipeline.measure, WorkerState.weight] at this ⊢
    omega
  · simp [Pipeline.measure, hc]
  · have := weight_set_sum WorkerState.exited s.workers w _ hw
    simp only [Pipeline.measure, WorkerState.weight] at this ⊢
    omega
  · simp [Pipeline.measure, hf]

/-- A schedule is at most as long as the measure it uses up. -/
theorem Pipeline.run_measure (key : String) (lookup : String → Except String (List IP)) :
    ∀ (es : List Event) (s t : Pipeline), Pipeline.run key lookup s es = some t →
      es.length + t.measure ≤ s.measure
  | [], s, t, hrun => by
    simp [Pipeline.run] at hrun
    simp [hrun]
  | e :: es, s, t, hrun => by
    simp only [Pipeline.run] at hrun
    split at hrun
    · simp at hrun
    · rename_i u hu
      have h1 := Pipeline.step_measure key lookup s u e hu
      have h2 := Pipeline.run_measure key lookup es u t hrun
      simp only [List.length_cons]
      omega

/-! ## No panic on addresses whose iteration does not panic -/

theorem mem_heldBy (ip : IP) :
    ∀ (ws : List WorkerState) (w : WorkerState), w ∈ ws → ip ∈ w.held → ip ∈ heldBy ws
  | [], w, hw, _ => by simp at hw
  | x :: ws, w, hw, hip => by
    rw [heldBy_cons]
    rcases List.mem_cons.mp hw with h | h
    · exact List.mem_append_left _ (h ▸ hip)
    · exact List.mem_append_right _ (mem_heldBy ip ws w h hip)

theorem Pipeline.step_panicked (key : String) (lookup : String → Except String (List IP))
    (exitNodes : List IP) (workers : Int) (s t : Pipeline) (e : Event)
    (hgood : ∀ ip ∈ exitNodes, (resolverBody key lookup ip).2 = none)
    (hinv : Pipeline.Inv key lookup exitNodes workers s)
    (hstep : Pipeline.step key lookup s e = some t) : t.panicked = false := by
  obtain ⟨hp, hf⟩ := Pipeline.step_alive key lookup s t e hstep
  rcases Pipeline.step_cases key lookup s t e hstep with
    ⟨w, addr, rest, -, hpend, hw, rfl⟩ | ⟨w, ip, d, -, hw, -, rfl⟩
    | ⟨w, ip, d, p, -, hw, hres, rfl⟩
    | ⟨w, d, -, hw, -, rfl⟩ | ⟨-, -, hc, rfl⟩ | ⟨w, -, hw, -, rfl⟩ | ⟨-, -, -, -, rfl⟩
  · exact hp
  · exact hp
  · have hmem : ip ∈ heldBy s.workers :=
      mem_heldBy ip s.workers _ (List.getElem?_mem hw) (by simp [WorkerState.held])
    have hin : ip ∈ exitNodes :=
      hinv.accounted.subset (List.mem_append_left _ (List.mem_append_right _ hmem))
    have := hgood ip hin
    rw [hres] at this
    simp at this
  · exact hp
  · exact hp
  · exact hp
  · exact hp

theorem Pipeline.run_panicked (key : String) (lookup : String → Except String (List IP))
    (exitNodes : List IP) (workers : Int)
    (hgood : ∀ ip ∈ exitNodes, (resolverBody key lookup ip).2 = none) :
    ∀ (es : List Event) (s t : Pipeline), Pipeline.Inv key lookup exitNodes workers s →
      s.panicked = false → Pipeline.run key lookup s es = some t → t.panicked = false
  | [], s, t, _, hp, hrun => by
    simp [Pipeline.run] at hrun
    exact hrun ▸ hp
  | e :: es, s, t, hinv, _, hrun => by
    simp only [Pipeline.run] at hrun
    split at hrun
    · simp at hrun
    · rename_i u hu
      exact Pipeline.run_panicked key lookup exitNodes workers hgood es u t
        (Pipeline.step_inv key lookup exitNodes workers s u e hinv hu)
        (Pipeline.step_panicked key lookup exitNodes workers s u e hgood hinv hu) hrun

/-! ## Progress: a live process that is not finished can take a step -/

theorem Pipeline.progress (key : String) (lookup : String → Except String (List IP))
    (exitNodes : List IP) (workers : Int) (s : Pipeline) (hw : 1 ≤ workers)
    (hinv : Pipeline.Inv key lookup exitNodes workers s)
    (hp : s.panicked = false) (hf : s.finished = false) :
    ∃ e t, Pipeline.step key lookup s e = some t := by
  have hg : ¬ ((s.panicked || s.finished) = true) := by simp [hp, hf]
  have hlen : s.received.length + (heldBy s.workers).length + s.pending.length = s.total := by
    have := hinv.accounted.length_eq
    simp only [List.length_append, List.length_map] at this
    rw [hinv.total_eq]
    exact this
  by_cases h1 : ∃ w ∈ s.workers, ∃ ip, w = WorkerState.resolving ip
  · obtain ⟨w, hmem, ip, rfl⟩ := h1
    obtain ⟨i, hi⟩ := List.getElem?_of_mem hmem
    refine ⟨Event.resolve i, ?_⟩
    simp only [Pipeline.step, if_neg hg, hi]
    rcases hres : resolverBody key lookup ip with ⟨d, _ | p⟩
    · exact ⟨_, rfl⟩
    · exact ⟨_, rfl⟩
  by_cases h2 : ∃ w ∈ s.workers, ∃ d, w = WorkerState.sending d
  · obtain ⟨w, hmem, d, rfl⟩ := h2
    obtain ⟨i, hi⟩ := List.getElem?_of_mem hmem
    have hheld : d.ip ∈ heldBy s.workers :=
      mem_heldBy d.ip s.workers _ hmem (by simp [WorkerState.held])
    have hpos : 0 < (heldBy s.workers).length := List.length_pos_of_mem hheld
    have hlt : s.received.length < s.total := by omega
    refine ⟨Event.deliver i, ?_⟩
    simp only [Pipeline.step, if_neg hg, hi, if_pos hlt]
    exact ⟨_, rfl⟩
  have hidle : ∀ w ∈ s.workers, w = WorkerState.receiving ∨ w = WorkerState.exited := by
    intro w hmem
    cases w with
    | receiving => exact Or.inl rfl
    | resolving ip => exact absurd ⟨_, hmem, ip, rfl⟩ h1
    | sending d => exact absurd ⟨_, hmem, d, rfl⟩ h2
    | exited => exact Or.inr rfl
  have hheld : heldBy s.workers = [] := by
    have : ∀ ws : List WorkerState,
        (∀ w ∈ ws, w = WorkerState.receiving ∨ w = WorkerState.exited) → heldBy ws = [] := by
      intro ws
      induction ws with
      | nil => intro _; rfl
      | cons x ws ih =>
        intro h
        have hx := h x (List.mem_cons_self _ _)
        have hrest := ih (fun w hw => h w (List.mem_cons_of_mem _ hw))
        rcases hx with hx | hx <;> simp [heldBy_cons, hrest, hx, WorkerState.held]
    exact this s.workers hidle
  cases hpend : s.pending with
  | cons addr rest =>
    have hopen : s.inClosed = false := by
      cases hc : s.inClosed with
      | false => rfl
      | true =>
        have := hinv.closed_pending hc
        rw [hpend] at this
        exact absurd this (by simp)
    have hlen0 : 0 < s.workers.length := by
      rw [hinv.workers_len]
      omega
    obtain ⟨x, hx⟩ : ∃ x, s.workers[0]? = some x :=
      ⟨s.workers[0], List.getElem?_eq_getElem hlen0⟩
    have hxmem : x ∈ s.workers := List.getElem?_mem hx
    have hxr : x = WorkerState.receiving := by
      rcases hidle x hxmem with h | h
      · exact h
      · have := hinv.worker_ok x hxmem
        rw [h, hopen] at this
        simp [WorkerState.ok] at this
    rw [hxr] at hx
    refine ⟨Event.feed 0, ?_⟩
    simp only [Pipeline.step, if_neg hg, hpend, hx]
    exact ⟨_, rfl⟩
  | nil =>
    cases hc : s.inClosed with
    | false =>
      refine ⟨Event.closeIn, ?_⟩
      simp only [Pipeline.step, if_neg hg, hpend, hc, and_self, if_true]
      exact ⟨_, rfl⟩
    | true =>
      by_cases h3 : ∃ w ∈ s.workers, w = WorkerState.receiving
      · obtain ⟨w, hmem, rfl⟩ := h3
        obtain ⟨i, hi⟩ := List.getElem?_of_mem hmem
        refine ⟨Event.exit i, ?_⟩
        simp only [Pipeline.step, if_neg hg, hi, hc, if_true]
        exact ⟨_, rfl⟩
      · have hall : ∀ w ∈ s.workers, w = WorkerState.exited := by
          intro w hmem
          rcases hidle w hmem with h | h
          · exact absurd ⟨w, hmem, h⟩ h3
          · exact h
        have hrecv : s.received.length = s.total := by
          rw [hheld, hpend] at hlen
          simpa using hlen
        have hallb : s.workers.all (fun w => decide (w = WorkerState.exited)) = true := by
          rw [List.all_eq_true]
          intro w hmem
          simpa using hall w hmem
        refine ⟨Event.finish, ?_⟩
        simp only [Pipeline.step, if_neg hg, hrecv, hc, hallb, and_self, if_true]
        exact ⟨_, rfl⟩

/-! ## One worker: the order of the input is kept -/

theorem Pipeline.step_order (key : String) (lookup : String → Except String (List IP))
    (exitNodes : List IP) (s t : Pipeline) (e : Event) (hone : s.workers.length = 1)
    (hord : s.received.map ipData.ip ++ heldBy s.workers ++ s.pending = exitNodes)
    (hstep : Pipeline.step key lookup s e = some t) :
    t.workers.length = 1
      ∧ t.received.map ipData.ip ++ heldBy t.workers ++ t.pending = exitNodes := by
  obtain ⟨x, hx⟩ := List.length_eq_one.mp hone
  have hidx : ∀ (w : Nat) (y : WorkerState), s.workers[w]? = some y → w = 0 ∧ x = y := by
    intro w y hw
    rw [hx] at hw
    cases w with
    | zero => exact ⟨rfl, by simpa using hw⟩
    | succ n => simp at hw
  rcases Pipeline.step_cases key lookup s t e hstep with
    ⟨w, addr, rest, -, hpend, hw, rfl⟩ | ⟨w, ip, d, -, hw, hres, rfl⟩
    | ⟨w, ip, d, p, -, hw, -, rfl⟩
    | ⟨w, d, -, hw, -, rfl⟩ | ⟨-, -, hc, rfl⟩ | ⟨w, -, hw, -, rfl⟩ | ⟨-, -, -, -, rfl⟩
  · obtain ⟨rfl, rfl⟩ := hidx w _ hw
    rw [hx, hpend] at hord
    simp only [hx, List.set_cons_zero, List.length_singleton, heldBy_cons, heldBy_nil,
      WorkerState.held, List.append_nil, List.nil_append,
      List.append_assoc, List.singleton_append, true_and] at hord ⊢
    exact hord
  · obtain ⟨rfl, rfl⟩ := hidx w _ hw
    have hip : d.ip = ip := by
      have := resolverBody_ip key lookup ip
      rw [hres] at this
      exact this
    rw [hx] at hord
    simp only [hx, List.set_cons_zero, List.length_singleton, heldBy_cons, heldBy_nil,
      WorkerState.held, List.append_nil, hip,
      true_and] at hord ⊢
    exact hord
  · exact ⟨hone, hord⟩
  · obtain ⟨rfl, rfl⟩ := hidx w _ hw
    rw [hx] at hord
    simp only [hx, List.set_cons_zero, List.length_singleton, heldBy_cons, heldBy_nil,
      WorkerState.held, List.append_nil, List.map_append,
      List.map_cons, List.append_assoc, true_and] at hord ⊢
    exact hord
  · exact ⟨hone, hord⟩
  · obtain ⟨rfl, rfl⟩ := hidx w _ hw
    rw [hx] at hord
    simp only [hx, List.set_cons_zero, List.length_singleton, heldBy_cons, heldBy_nil,
      WorkerState.held, List.append_nil,
      true_and] at hord ⊢
    exact hord
  · exact ⟨hone, hord⟩

theorem Pipeline.run_order (key : String) (lookup : String → Except String (List IP))
    (exitNodes : List IP) :
    ∀ (es : List Event) (s t : Pipeline), s.workers.length = 1 →
      s.received.map ipData.ip ++ heldBy s.workers ++ s.pending = exitNodes →
      Pipeline.run key lookup s es = some t →
      t.received.map ipData.ip ++ heldBy t.workers ++ t.pending = exitNodes
  | [], s, t, _, hord, hrun => by
    simp [Pipeline.run] at hrun
    exact hrun ▸ hord
  | e :: es, s, t, hone, hord, hrun => by
    simp only [Pipeline.run] at hrun
    split at hrun
    · simp at hrun
    · rename_i u hu
      obtain ⟨h1, h2⟩ := Pipeline.step_order key lookup exitNodes s u e hone hord hu
      exact Pipeline.run_order key lookup exitNodes es u t h1 h2 hrun

/-- The records received are those the resolver builds for their addresses. -/
theorem received_eq_map_recordOf (key : String) (lookup : String → Except String (List IP)) :
    ∀ (ds : List ipData), (∀ d ∈ ds, resolverBody key lookup d.ip = (d, none)) →
      ds = (ds.map ipData.ip).map (recordOf key lookup)
  | [], _ => rfl
  | d :: ds, h => by
    have hd : recordOf key lookup d.ip = d := by
      unfold recordOf
      rw [h d (List.mem_cons_self _ _)]
    have ih := received_eq_map_recordOf key lookup ds
      (fun x hx => h x (List.mem_cons_of_mem _ hx))
    simp only [List.map_cons, hd]
    exact congrArg _ ih

theorem Pipeline.init_measure (exitNodes : List IP) (workers : Int) :
    (Pipeline.init exitNodes workers).measure = 4 * exitNodes.length + workers.toNat + 3 := by
  simp [Pipeline.init, Pipeline.measure, WorkerState.weight]

/-! ## The pipeline as a whole -/

/-- C9: for every list of input addresses, every pool of at least one worker and every
schedule of the feeder, the workers and the consumer loop: no record is received twice
or lost (the addresses received, in flight and still to send are the input addresses,
counted with repetitions, and each record is the one built for its address); a run
that is complete has received exactly as many records and printed exactly as many
lines as there are input addresses, and the addresses of its records are the input
addresses, counted with repetitions; every run is finite, a state that is neither
finished nor dead can always go on, and no run dies when no iteration panics. -/
theorem pipeline_one_record_per_address (key : String)
    (lookup : String → Except String (List IP)) (exitNodes : List IP) (workers : Int)
    (es : List Event) (s : Pipeline) (hw : 1 ≤ workers)
    (hrun : Pipeline.run key lookup (Pipeline.init exitNodes workers) es = some s) :
    s.output.length = s.received.length
      ∧ (s.received.map ipData.ip ++ heldBy s.workers ++ s.pending).Perm exitNodes
      ∧ (∀ d ∈ s.received, d = recordOf key lookup d.ip)
      ∧ (s.finished = true →
          s.received.length = exitNodes.length ∧ s.output.length = exitNodes.length
            ∧ (s.received.map ipData.ip).Perm exitNodes)
      ∧ es.length + s.measure ≤ 4 * exitNodes.length + workers.toNat + 3
      ∧ (s.finished = false → s.panicked = false →
          ∃ e t, Pipeline.step key lookup s e = some t)
      ∧ ((∀ ip ∈ exitNodes, (resolverBody key lookup ip).2 = none) → s.panicked = false) := by
  have hinv := Pipeline.run_inv key lookup exitNodes workers es _ s
    (Pipeline.init_inv key lookup exitNodes workers) hrun
  have hout : s.output.length = s.received.length := by simp [Pipeline.output]
  refine ⟨hout, hinv.accounted, ?_, ?_, ?_, ?_, ?_⟩
  · intro d hd
    unfold recordOf
    rw [hinv.received_ok d hd]
  · intro hfin
    obtain ⟨hlen, -, hall⟩ := hinv.finished_all hfin
    have hlen2 : s.received.length = exitNodes.length := by rw [hlen, hinv.total_eq]
    refine ⟨hlen2, by rw [hout, hlen2], ?_⟩
    have hacc := hinv.accounted
    have hpend : s.pending = [] := by
      have h := hacc.length_eq
      simp only [List.length_append, List.length_map] at h
      exact List.eq_nil_of_length_eq_zero (by omega)
    rw [heldBy_eq_nil_of_exited s.workers hall, hpend] at hacc
    simpa using hacc
  · have := Pipeline.run_measure key lookup es _ s hrun
    rw [Pipeline.init_measure] at this
    exact this
  · intro hf hp
    exact Pipeline.progress key lookup exitNodes workers s hw hinv hp hf
  · intro hgood
    exact Pipeline.run_panicked key lookup exitNodes workers hgood es _ s
      (Pipeline.init_inv key lookup exitNodes workers) rfl hrun

/-- Three workers for two addresses, none of them listed: the run is complete with two
records, for the two addresses. -/
theorem pipeline_one_record_per_address_witness :
    ∃ s, Pipeline.run "abc" (fun _ => Except.ok []) (Pipeline.init [[1, 2, 3, 4], [8, 8, 8, 8]] 3)
          [Event.feed 2, Event.resolve 2, Event.feed 0, Event.deliver 2, Event.resolve 0,
           Event.closeIn, Event.exit 1, Event.deliver 0, Event.exit 0, Event.exit 2,
           Event.finish] = some s
      ∧ s.finished = true ∧ s.received.length = 2 ∧ s.output.length = 2
      ∧ (s.received.map ipData.ip).Perm [[1, 2, 3, 4], [8, 8, 8, 8]] := by
  have hsome : (Pipeline.run "abc" (fun _ => Except.ok [])
      (Pipeline.init [[1, 2, 3, 4], [8, 8, 8, 8]] 3)
      [Event.feed 2, Event.resolve 2, Event.feed 0, Event.deliver 2, Event.resolve 0,
       Event.closeIn, Event.exit 1, Event.deliver 0, Event.exit 0, Event.exit 2,
       Event.finish]).isSome = true := by decide
  have hfin : (Pipeline.run "abc" (fun _ => Except.ok [])
      (Pipeline.init [[1, 2, 3, 4], [8, 8, 8, 8]] 3)
      [Event.feed 2, Event.resolve 2, Event.feed 0, Event.deliver 2, Event.resolve 0,
       Event.closeIn, Event.exit 1, Event.deliver 0, Event.exit 0, Event.exit 2,
       Event.finish]).map Pipeline.finished = some true := by decide
  obtain ⟨s, hs⟩ := Option.isSome_iff_exists.mp hsome
  rw [hs] at hfin
  have hfin2 : s.finished = true := by simpa using hfin
  have h := pipeline_one_record_per_address "abc" (fun _ => Except.ok [])
    [[1, 2, 3, 4], [8, 8, 8, 8]] 3 _ s (by decide) hs
  obtain ⟨h1, h2, h3⟩ := h.2.2.2.1 hfin2
  exact ⟨s, hs, hfin2, h1, h2, h3⟩

/-- C10 (as amended): the output is in the order of arrival. In a complete run the
lines printed are the lines of the input addresses in some order; with a pool of one
worker the lines printed so far are, in order, the lines of the first input addresses,
so that a complete run prints the i-th line for the i-th input address. -/
theorem pipeline_output_arrival_order (key : String)
    (lookup : String → Except String (List IP)) (exitNodes : List IP) (workers : Int)
    (es : List Event) (s : Pipeline)
    (hrun : Pipeline.run key lookup (Pipeline.init exitNodes workers) es = some s) :
    (s.finished = true →
        s.output.Perm (exitNodes.map (fun ip => consumerLine (recordOf key lookup ip))))
      ∧ (workers = 1 →
          s.output = (exitNodes.take s.received.length).map
              (fun ip => consumerLine (recordOf key lookup ip))
            ∧ (s.finished = true →
              s.output = exitNodes.map (fun ip => consumerLine (recordOf key lookup ip)))) := by
  have hinv := Pipeline.run_inv key lookup exitNodes workers es _ s
    (Pipeline.init_inv key lookup exitNodes workers) hrun
  have hrec := received_eq_map_recordOf key lookup s.received hinv.received_ok
  have hout : s.output = (s.received.map ipData.ip).map
      (fun ip => consumerLine (recordOf key lookup ip)) := by
    unfold Pipeline.output
    conv_lhs => rw [hrec]
    simp only [List.map_map]
    rfl
  have hfinlen : s.finished = true → s.received.length = exitNodes.length := by
    intro hfin
    rw [(hinv.finished_all hfin).1, hinv.total_eq]
  constructor
  · intro hfin
    obtain ⟨hlen, -, hall⟩ := hinv.finished_all hfin
    have hacc := hinv.accounted
    have hpend : s.pending = [] := by
      have h := hacc.length_eq
      have := hfinlen hfin
      simp only [List.length_append, List.length_map] at h
      exact List.eq_nil_of_length_eq_zero (by omega)
    rw [heldBy_eq_nil_of_exited s.workers hall, hpend] at hacc
    rw [hout]
    exact List.Perm.map _ (by simpa using hacc)
  · intro hone
    have hord := Pipeline.run_order key lookup exitNodes es _ s
      (by simp [Pipeline.init, hone]) (by simp [Pipeline.init, hone, heldBy, WorkerState.held])
      hrun
    have htake : exitNodes.take s.received.length = s.received.map ipData.ip := by
      rw [← hord, List.append_assoc]
      have : s.received.length = (s.received.map ipData.ip).length := by simp
      rw [this, List.take_left']
      rfl
    refine ⟨by rw [htake, hout], ?_⟩
    intro hfin
    have := hfinlen hfin
    rw [hout, ← htake, this, List.take_length]

/-- One worker for two addresses: the two lines come out in the order of the input. -/
theorem pipeline_output_arrival_order_witness :
    ∃ s, Pipeline.run "abc" (fun _ => Except.ok []) (Pipeline.init [[1, 2, 3, 4], [8, 8, 8, 8]] 1)
          [Event.feed 0, Event.resolve 0, Event.deliver 0, Event.feed 0, Event.resolve 0,
           Event.deliver 0, Event.closeIn, Event.exit 0, Event.finish] = some s
      ∧ s.output = ["1.2.3.4,,,\n", "8.8.8.8,,,\n"] := by
  have hsome : (Pipeline.run "abc" (fun _ => Except.ok [])
      (Pipeline.init [[1, 2, 3, 4], [8, 8, 8, 8]] 1)
      [Event.feed 0, Event.resolve 0, Event.deliver 0, Event.feed 0, Event.resolve 0,
       Event.deliver 0, Event.closeIn, Event.exit 0, Event.finish]).isSome = true := by decide
  have hfin : (Pipeline.run "abc" (fun _ => Except.ok [])
      (Pipeline.init [[1, 2, 3, 4], [8, 8, 8, 8]] 1)
      [Event.feed 0, Event.resolve 0, Event.deliver 0, Event.feed 0, Event.resolve 0,
       Event.deliver 0, Event.closeIn, Event.exit 0, Event.finish]).map Pipeline.finished
        = some true := by decide
  obtain ⟨s, hs⟩ := Option.isSome_iff_exists.mp hsome
  rw [hs] at hfin
  have hfin2 : s.finished = true := by simpa using hfin
  have h := (pipeline_output_arrival_order "abc" (fun _ => Except.ok [])
    [[1, 2, 3, 4], [8, 8, 8, 8]] 1 _ s hs).2 rfl
  exact ⟨s, hs, (h.2 hfin2).trans (by decide)⟩

/-- C10 (counterexample to the claim as stated): two workers, the addresses 1.2.3.4 and
8.8.8.8 in this order, none of them listed. The worker that received the second
address sends its record first: the run is complete and its first line is the line of
the second input address. -/
theorem pipeline_output_order_counterexample :
    (Pipeline.run "abc" (fun _ => Except.ok []) (Pipeline.init [[1, 2, 3, 4], [8, 8, 8, 8]] 2)
        [Event.feed 0, Event.feed 1, Event.resolve 1, Event.resolve 0, Event.deliver 1,
         Event.deliver 0, Event.closeIn, Event.exit 0, Event.exit 1, Event.finish]).map
        (fun s => (s.finished, s.output))
      = some (true, ["8.8.8.8,,,\n", "1.2.3.4,,,\n"])
    ∧ [[1, 2, 3, 4], [8, 8, 8, 8]].map
        (fun ip => consumerLine (recordOf "abc" (fun _ => Except.ok []) ip))
      = ["1.2.3.4,,,\n", "8.8.8.8,,,\n"]
    ∧ ["8.8.8.8,,,\n", "1.2.3.4,,,\n"] ≠ ["1.2.3.4,,,\n", "8.8.8.8,,,\n"] := by
  decide

end Torhoney
